import Mathlib

/-!
Shallow embedding of `pdf_to_txt.py` (function `convert_pdfs_to_txt`).

The script lists the current directory, keeps the names whose lowercase form
ends in `.pdf`, and for each such name: prints a start message, reads the PDF,
extracts the text of every page, keeps the truthy (nonempty) page texts,
joins them with a newline and writes the result to `splitext(name)[0] + ".txt"`,
printing a success message; any exception raised while processing one file is
caught and reported with the filename and the message, and the loop continues.
After the loop a completion message is printed.  When no name matches the
filter the script prints a report and returns before the loop.

The external world (the PDF library and the filesystem write) is modelled by
an environment `Env`: `Env.read f` is the outcome of `PdfReader(f)` together
with `page.extract_text()` over all pages (a list of page texts, or the
exception message), and `Env.writeErr t` is the exception raised by
`open(t, "w")` for the output path, when any.  The filesystem of output files
is an association list from filename to content; console output is a list of
`Msg` values, one per `print` call of the loop body.
-/

namespace PdfToTxt

/-- Outcome of opening one PDF and extracting the text of all its pages:
either the list of per-page `extract_text()` results (possibly empty strings),
or the message of the exception raised while reading or extracting. -/
inductive PdfResult where
  | ok (pages : List String)
  | err (msg : String)
deriving DecidableEq, Repr

/-- The ambient world of one run: what reading each PDF yields, and whether
opening each output path for writing raises. -/
structure Env where
  read : String → PdfResult
  writeErr : String → Option String

/-- Console messages of the script, one constructor per `print` text:
`noFiles` for the no-PDF-found report, `found n` for the header naming the
count, `converting src dst` for the per-file start line, `success dst`,
`error src msg` for the per-file exception report naming the file and the
exception message, and `done` for the final completion message. -/
inductive Msg where
  | noFiles
  | found (n : Nat)
  | converting (src dst : String)
  | success (dst : String)
  | error (src msg : String)
  | done
deriving DecidableEq, Repr

/-- Index of the last `.` of a character list, as Python `str.rfind`. -/
def lastDotIdx : List Char → Option Nat
  | [] => none
  | c :: rest =>
    match lastDotIdx rest with
    | some i => some (i + 1)
    | none => if c = '.' then some 0 else none

/-- Python `os.path.splitext` specialised to a bare filename (no `/`, so
`sepIndex = -1`): split at the last dot provided some character before it is
not a dot (leading dots are skipped); otherwise the extension is empty. -/
def splitext (cs : List Char) : List Char × List Char :=
  match lastDotIdx cs with
  | none => (cs, [])
  | some i =>
    if (cs.take i).any (fun c => c ≠ '.') then (cs.take i, cs.drop i)
    else (cs, [])

/-- Root part of `os.path.splitext(s)`, i.e. `splitext(s)[0]`. -/
def splitextRoot (s : String) : String :=
  String.mk (splitext s.data).1

/-- Output filename of an input filename: `os.path.splitext(f)[0] + ".txt"`. -/
def txtName (f : String) : String :=
  splitextRoot f ++ ".txt"

/-- Python `str.lower` (ASCII case mapping, as `Char.toLower`). -/
def pyLower (s : String) : String :=
  String.mk (s.data.map Char.toLower)

/-- Python `str.endswith` on character lists: the last `suffix.length`
characters equal `suffix`. -/
def endsWithL (cs suffix : List Char) : Bool :=
  decide (suffix.length ≤ cs.length) &&
  decide (cs.drop (cs.length - suffix.length) = suffix)

/-- The directory filter of the script: `f.lower().endswith(".pdf")`. -/
def pyEndsWithPdf (f : String) : Bool :=
  endsWithL (pyLower f).data ['.', 'p', 'd', 'f']

/-- Content written for a list of page texts: the loop keeps a page text only
when it is truthy (`if text:`), then the kept texts are joined with a newline
(`"\n".join(text_content)`). -/
def joinPages (pages : List String) : String :=
  String.intercalate "\n" (pages.filter (fun t => t ≠ ""))

/-- Output-file state: an association list from filename to content. -/
abbrev Fs := List (String × String)

/-- Content of a file of the output state, when present. -/
def getFile? (fs : Fs) (n : String) : Option String :=
  (fs.find? (fun e => e.1 = n)).map (fun e => e.2)

/-- Write a file: overwrite the entry of that name, or append a new one. -/
def setFile : Fs → String → String → Fs
  | [], n, c => [(n, c)]
  | (k, v) :: rest, n, c =>
    if k = n then (n, c) :: rest else (k, v) :: setFile rest n c

/-- One iteration of the loop body on filename `f`: print the start message;
inside `try`, read the PDF and extract all pages, then open the output file
and write the joined text and print success; on an exception (from reading,
extraction or the write), print the error report with `f` and the message and
leave the output state unchanged. -/
def step (env : Env) (acc : Fs × List Msg) (f : String) : Fs × List Msg :=
  let txt := txtName f
  let msgs := acc.2 ++ [Msg.converting f txt]
  match env.read f with
  | PdfResult.err m => (acc.1, msgs ++ [Msg.error f m])
  | PdfResult.ok pages =>
    match env.writeErr txt with
    | some m => (acc.1, msgs ++ [Msg.error f m])
    | none => (setFile acc.1 txt (joinPages pages), msgs ++ [Msg.success txt])

/-- The whole `convert_pdfs_to_txt` run on a directory listing: filter to the
names whose lowercase form ends in `.pdf`; when none, report and return;
otherwise print the header, run the loop body over the files in listing order,
and print the completion message.  Returns the final output-file state and
the console transcript. -/
def convert_pdfs_to_txt (env : Env) (listing : List String) (fs0 : Fs) :
    Fs × List Msg :=
  let files := listing.filter (fun f => pyEndsWithPdf f)
  if files.isEmpty then (fs0, [Msg.noFiles])
  else
    let r := files.foldl (step env) (fs0, [Msg.found files.length])
    (r.1, r.2 ++ [Msg.done])

/-- Console messages one iteration of the loop emits for filename `f`:
the start message, then the success message or the error report. -/
def fileMsgs (env : Env) (f : String) : List Msg :=
  Msg.converting f (txtName f) ::
    (match env.read f with
     | PdfResult.err m => [Msg.error f m]
     | PdfResult.ok _ =>
       match env.writeErr (txtName f) with
       | some m => [Msg.error f m]
       | none => [Msg.success (txtName f)])

/-- The write one iteration of the loop performs for filename `f`, when its
`try` block reaches the write and the write succeeds. -/
def fileWrite (env : Env) (f : String) : Option (String × String) :=
  match env.read f with
  | PdfResult.err _ => none
  | PdfResult.ok pages =>
    match env.writeErr (txtName f) with
    | some _ => none
    | none => some (txtName f, joinPages pages)

/-- Apply a list of writes to the output-file state, in order. -/
def applyWrites (fs : Fs) (w : List (String × String)) : Fs :=
  w.foldl (fun a e => setFile a e.1 e.2) fs

/-- Content of the last write to name `m` in a list of writes, when any. -/
def lastW : List (String × String) → String → Option String
  | [], _ => none
  | (n, c) :: w, m =>
    match lastW w m with
    | some c2 => some c2
    | none => if m = n then some c else none

/-- Environment where every PDF reads successfully with pages
`["Hello", "", "World"]` and every write succeeds. -/
def env0 : Env where
  read := fun _ => PdfResult.ok ["Hello", "", "World"]
  writeErr := fun _ => none

/-- Environment where `bad.pdf` is corrupted and raises on reading, while the
other PDFs extract one page each; every write succeeds. -/
def env5 : Env where
  read := fun f =>
    if f = "bad.pdf" then PdfResult.err "EOF marker not found"
    else if f = "good1.pdf" then PdfResult.ok ["A"]
    else PdfResult.ok ["B"]
  writeErr := fun _ => none

/-- Environment where every PDF raises on reading. -/
def envErr : Env where
  read := fun _ => PdfResult.err "Stream has ended unexpectedly"
  writeErr := fun _ => none

/-! Helper lemmas about `splitext` and the extension filter. -/

theorem lastDotIdx_eq_none {t : List Char} (h : '.' ∉ t) : lastDotIdx t = none := by
  induction t with
  | nil => rfl
  | cons c r ih =>
    rw [List.mem_cons, not_or] at h
    simp only [lastDotIdx, ih h.2]
    rw [if_neg (Ne.symm h.1)]

theorem lastDotIdx_append {t : List Char} (s : List Char) (h : '.' ∉ t) :
    lastDotIdx (s ++ '.' :: t) = some s.length := by
  induction s with
  | nil => simp [lastDotIdx, lastDotIdx_eq_none h]
  | cons c r ih => simp [lastDotIdx, ih]

theorem splitext_append {t : List Char} (s : List Char) (h : '.' ∉ t)
    (hs : s.any (fun c => c ≠ '.') = true) :
    splitext (s ++ '.' :: t) = (s, '.' :: t) := by
  rw [splitext, lastDotIdx_append s h]
  simp only [List.take_left, List.drop_left, hs, if_true]

theorem splitext_dot_cons {t : List Char} (h : '.' ∉ t) :
    splitext ('.' :: t) = ('.' :: t, []) := by
  have h0 : ('.' :: t) = [] ++ '.' :: t := rfl
  rw [splitext, h0, lastDotIdx_append [] h]
  simp

theorem ne_dot_of_toLower {c r : Char} (h : c.toLower = r) (hr : r ≠ '.') :
    c ≠ '.' := by
  intro hc
  apply hr
  rw [← h, hc]
  decide

theorem endsWithL_append (l suf : List Char) : endsWithL (l ++ suf) suf = true := by
  simp [endsWithL, List.length_append, List.drop_left]

/-- C10: a directory entry whose entire name is a dot followed by the pdf
extension (any letter case) is selected by the filter, but `splitext` treats
the whole name as the root (the only dot is a leading dot), so the output
filename is the input name with `.txt` appended, not `.txt` itself. -/
theorem dotfile_selected_txt_appended (c1 c2 c3 : Char)
    (h1 : c1.toLower = 'p') (h2 : c2.toLower = 'd') (h3 : c3.toLower = 'f') :
    pyEndsWithPdf (String.mk ['.', c1, c2, c3]) = true ∧
    txtName (String.mk ['.', c1, c2, c3]) = String.mk ['.', c1, c2, c3] ++ ".txt" ∧
    txtName (String.mk ['.', c1, c2, c3]) ≠ ".txt" := by
  have e1 : c1 ≠ '.' := ne_dot_of_toLower h1 (by decide)
  have e2 : c2 ≠ '.' := ne_dot_of_toLower h2 (by decide)
  have e3 : c3 ≠ '.' := ne_dot_of_toLower h3 (by decide)
  have hn : ('.' : Char) ∉ [c1, c2, c3] := by
    simp [List.mem_cons, Ne.symm e1, Ne.symm e2, Ne.symm e3]
  have hmap : ['.', c1, c2, c3].map Char.toLower = ['.', 'p', 'd', 'f'] := by
    simp [h1, h2, h3, show Char.toLower '.' = '.' from by decide]
  have hsel : pyEndsWithPdf (String.mk ['.', c1, c2, c3]) = true := by
    have h4 : (pyLower (String.mk ['.', c1, c2, c3])).data = ['.', 'p', 'd', 'f'] := hmap
    rw [pyEndsWithPdf, h4]
    simpa using endsWithL_append [] ['.', 'p', 'd', 'f']
  have hroot : splitextRoot (String.mk ['.', c1, c2, c3]) = String.mk ['.', c1, c2, c3] := by
    simp only [splitextRoot]
    rw [splitext_dot_cons hn]
  have htxt : txtName (String.mk ['.', c1, c2, c3]) =
      String.mk ['.', c1, c2, c3] ++ ".txt" := by
    rw [txtName, hroot]
  refine ⟨hsel, htxt, ?_⟩
  rw [htxt]
  intro he
  have hd := congrArg String.data he
  rw [String.data_append] at hd
  have hl := congrArg List.length hd
  simp at hl

/-- C10 witness: the entry named exactly `.pdf` is selected and converts to
`.pdf.txt`, not `.txt`. -/
theorem dotfile_selected_txt_appended_witness :
    pyEndsWithPdf ".pdf" = true ∧
    txtName ".pdf" = ".pdf" ++ ".txt" ∧
    txtName ".pdf" ≠ ".txt" :=
  dotfile_selected_txt_appended 'p' 'd' 'f' rfl rfl rfl

/-- C3 (amended): for an input whose name is a stem containing some non-dot
character followed by a `.pdf` extension in any letter case, the file is
selected and the output filename is the stem with `.txt` appended, i.e. the
input name with the extension replaced by `.txt`. -/
theorem extension_replaced (stem : String) (c1 c2 c3 : Char)
    (h1 : c1.toLower = 'p') (h2 : c2.toLower = 'd') (h3 : c3.toLower = 'f')
    (hstem : stem.data.any (fun c => c ≠ '.') = true) :
    pyEndsWithPdf (stem ++ String.mk ['.', c1, c2, c3]) = true ∧
    txtName (stem ++ String.mk ['.', c1, c2, c3]) = stem ++ ".txt" := by
  have e1 : c1 ≠ '.' := ne_dot_of_toLower h1 (by decide)
  have e2 : c2 ≠ '.' := ne_dot_of_toLower h2 (by decide)
  have e3 : c3 ≠ '.' := ne_dot_of_toLower h3 (by decide)
  have hn : ('.' : Char) ∉ [c1, c2, c3] := by
    simp [List.mem_cons, Ne.symm e1, Ne.symm e2, Ne.symm e3]
  have hdata : (stem ++ String.mk ['.', c1, c2, c3]).data =
      stem.data ++ '.' :: [c1, c2, c3] := by
    rw [String.data_append]
  have hsel : pyEndsWithPdf (stem ++ String.mk ['.', c1, c2, c3]) = true := by
    have h4 : (pyLower (stem ++ String.mk ['.', c1, c2, c3])).data =
        stem.data.map Char.toLower ++ ['.', 'p', 'd', 'f'] := by
      show (stem ++ String.mk ['.', c1, c2, c3]).data.map Char.toLower = _
      rw [hdata, List.map_append]
      simp [h1, h2, h3, show Char.toLower '.' = '.' from by decide]
    rw [pyEndsWithPdf, h4]
    exact endsWithL_append _ _
  have hroot : splitextRoot (stem ++ String.mk ['.', c1, c2, c3]) = stem := by
    simp only [splitextRoot]
    rw [hdata, splitext_append stem.data hn hstem]
  exact ⟨hsel, by rw [txtName, hroot]⟩

/-- C3 witness: the input `b.PDF` is selected and converts to `b.txt`. -/
theorem extension_replaced_witness :
    pyEndsWithPdf "b.PDF" = true ∧ txtName "b.PDF" = "b.txt" :=
  extension_replaced "b" 'P' 'D' 'F' rfl rfl rfl (by decide)

/-- C3 counterexample: the input `.pdf` is processed (it passes the filter),
yet its output filename is `.pdf.txt`, not the extension-replaced `.txt`. -/
theorem extension_replaced_counterexample :
    pyEndsWithPdf ".pdf" = true ∧ txtName ".pdf" = ".pdf.txt" ∧
    txtName ".pdf" ≠ ".txt" := by decide

/-- C8 (amended): two input filenames map to the same output filename exactly
when their `splitext` roots coincide; inputs with distinct roots always get
distinct output files, while inputs differing only in the extension (such as
`x.pdf` and `x.PDF`) share one output file. -/
theorem txtName_eq_iff_root_eq (f g : String) :
    txtName f = txtName g ↔ splitextRoot f = splitextRoot g := by
  constructor
  · intro h
    simp only [txtName] at h
    have hd := congrArg String.data h
    rw [String.data_append, String.data_append] at hd
    exact String.ext (List.append_cancel_right hd)
  · intro h
    rw [txtName, txtName, h]

/-- C8 counterexample: `x.pdf` and `x.PDF` are distinct names, both selected,
and they map to the same output filename `x.txt`. -/
theorem txtName_collision :
    ("x.pdf" : String) ≠ "x.PDF" ∧ pyEndsWithPdf "x.pdf" = true ∧
    pyEndsWithPdf "x.PDF" = true ∧ txtName "x.pdf" = txtName "x.PDF" := by decide

theorem getFile?_setFile (fs : Fs) (n c m : String) :
    getFile? (setFile fs n c) m = if m = n then some c else getFile? fs m := by
  induction fs with
  | nil =>
    by_cases h : m = n
    · subst h
      simp [getFile?, setFile, List.find?]
    · simp [getFile?, setFile, List.find?, h, Ne.symm h]
  | cons e rest ih =>
    obtain ⟨k, v⟩ := e
    by_cases hk : k = n
    · subst hk
      by_cases hm : m = k
      · subst hm
        simp [getFile?, setFile, List.find?]
      · simp [getFile?, setFile, List.find?, hm, Ne.symm hm]
    · by_cases hm : m = k
      · subst hm
        have hmn : m ≠ n := hk
        simp [getFile?, setFile, List.find?, hk, hmn]
      · simp only [setFile, if_neg hk]
        have hl : getFile? ((k, v) :: setFile rest n c) m =
            getFile? (setFile rest n c) m := by
          simp [getFile?, List.find?, Ne.symm hm]
        have hr2 : getFile? ((k, v) :: rest) m = getFile? rest m := by
          simp [getFile?, List.find?, Ne.symm hm]
        rw [hl, hr2, ih]

/-- C1: when reading the PDF succeeds with page texts `pages` and the write
succeeds, the loop body writes to the output file exactly the nonempty page
texts, in page order, joined by single newlines; in particular the pages
`["Hello", "", "World"]` give content `"Hello\nWorld"`. -/
theorem written_content_eq_joined_pages (env : Env) (fs : Fs) (ms : List Msg)
    (f : String) (pages : List String)
    (hr : env.read f = PdfResult.ok pages)
    (hw : env.writeErr (txtName f) = none) :
    getFile? (step env (fs, ms) f).1 (txtName f) =
      some (String.intercalate "\n" (pages.filter (fun t => t ≠ ""))) ∧
    joinPages ["Hello", "", "World"] = "Hello\nWorld" := by
  constructor
  · simp only [step, hr, hw]
    rw [getFile?_setFile]
    simp [joinPages]
  · decide

/-- C1 witness: a concrete iteration over `a.pdf` whose pages extract to
`["Hello", "", "World"]` writes exactly `"Hello\nWorld"` to `a.txt`. -/
theorem written_content_eq_joined_pages_witness :
    getFile? (step env0 ([], []) "a.pdf").1 (txtName "a.pdf") =
      some (String.intercalate "\n"
        ((["Hello", "", "World"] : List String).filter (fun t => t ≠ ""))) ∧
    joinPages ["Hello", "", "World"] = "Hello\nWorld" :=
  written_content_eq_joined_pages env0 [] [] "a.pdf" ["Hello", "", "World"]
    rfl rfl

/-- C9: the output file is opened only after the PDF is fully parsed and all
pages extracted, so an iteration whose read or extraction raises leaves the
output-file state exactly as it was. -/
theorem read_error_no_write (env : Env) (fs : Fs) (ms : List Msg) (f m : String)
    (hr : env.read f = PdfResult.err m) :
    (step env (fs, ms) f).1 = fs := by
  simp [step, hr]

/-- C9 witness: a concrete failing iteration leaves the empty output state
empty. -/
theorem read_error_no_write_witness : (step envErr ([], []) "x.pdf").1 = [] :=
  read_error_no_write envErr [] [] "x.pdf" "Stream has ended unexpectedly" rfl

/-- C5: an iteration whose PDF read raises reports the error naming the file
and the message and leaves the output state unchanged; and in the concrete
batch `good1.pdf, bad.pdf, good2.pdf` where `bad.pdf` is corrupted, the run
still writes `good1.txt` and `good2.txt` with their extracted contents,
writes no `bad.txt`, and prints an error report naming `bad.pdf`. -/
theorem corrupted_skipped_valid_converted (env : Env) (fs : Fs) (ms : List Msg)
    (f m : String) (hr : env.read f = PdfResult.err m) :
    ((step env (fs, ms) f).1 = fs ∧ Msg.error f m ∈ (step env (fs, ms) f).2) ∧
    convert_pdfs_to_txt env5 ["good1.pdf", "bad.pdf", "good2.pdf"] [] =
      ([("good1.txt", "A"), ("good2.txt", "B")],
       [Msg.found 3,
        Msg.converting "good1.pdf" "good1.txt", Msg.success "good1.txt",
        Msg.converting "bad.pdf" "bad.txt",
        Msg.error "bad.pdf" "EOF marker not found",
        Msg.converting "good2.pdf" "good2.txt", Msg.success "good2.txt",
        Msg.done]) := by
  refine ⟨⟨?_, ?_⟩, ?_⟩
  · simp [step, hr]
  · simp [step, hr]
  · decide

/-- C5 witness: instantiation at the corrupted file `bad.pdf` of the batch. -/
theorem corrupted_skipped_valid_converted_witness :
    ((step env5 ([], []) "bad.pdf").1 = [] ∧
      Msg.error "bad.pdf" "EOF marker not found" ∈ (step env5 ([], []) "bad.pdf").2) ∧
    convert_pdfs_to_txt env5 ["good1.pdf", "bad.pdf", "good2.pdf"] [] =
      ([("good1.txt", "A"), ("good2.txt", "B")],
       [Msg.found 3,
        Msg.converting "good1.pdf" "good1.txt", Msg.success "good1.txt",
        Msg.converting "bad.pdf" "bad.txt",
        Msg.error "bad.pdf" "EOF marker not found",
        Msg.converting "good2.pdf" "good2.txt", Msg.success "good2.txt",
        Msg.done]) :=
  corrupted_skipped_valid_converted env5 [] [] "bad.pdf" "EOF marker not found"
    rfl

/-! Decomposition of the loop fold into its console trace and its writes. -/

theorem foldl_step_snd (env : Env) (files : List String) :
    ∀ (fs : Fs) (ms : List Msg),
      (files.foldl (step env) (fs, ms)).2 = ms ++ files.flatMap (fileMsgs env) := by
  induction files with
  | nil => intro fs ms; simp
  | cons f rest ih =>
    intro fs ms
    rw [List.foldl_cons, List.flatMap_cons]
    cases hr : env.read f with
    | err m =>
      simp only [step, hr]
      rw [ih]
      simp [fileMsgs, hr]
    | ok pages =>
      cases hw : env.writeErr (txtName f) with
      | some m =>
        simp only [step, hr, hw]
        rw [ih]
        simp [fileMsgs, hr, hw]
      | none =>
        simp only [step, hr, hw]
        rw [ih]
        simp [fileMsgs, hr, hw]

theorem foldl_step_fst (env : Env) (files : List String) :
    ∀ (fs : Fs) (ms : List Msg),
      (files.foldl (step env) (fs, ms)).1 =
        applyWrites fs (files.filterMap (fileWrite env)) := by
  induction files with
  | nil => intro fs ms; simp [applyWrites]
  | cons f rest ih =>
    intro fs ms
    rw [List.foldl_cons, List.filterMap_cons]
    cases hr : env.read f with
    | err m =>
      have hfw : fileWrite env f = none := by simp [fileWrite, hr]
      simp only [step, hr, hfw]
      rw [ih]
    | ok pages =>
      cases hw : env.writeErr (txtName f) with
      | some m =>
        have hfw : fileWrite env f = none := by simp [fileWrite, hr, hw]
        simp only [step, hr, hw, hfw]
        rw [ih]
      | none =>
        have hfw : fileWrite env f = some (txtName f, joinPages pages) := by
          simp [fileWrite, hr, hw]
        simp only [step, hr, hw, hfw]
        rw [ih]
        rfl

theorem convert_eq_of_filter_nil (env : Env) (listing : List String) (fs0 : Fs)
    (h : listing.filter (fun f => pyEndsWithPdf f) = []) :
    convert_pdfs_to_txt env listing fs0 = (fs0, [Msg.noFiles]) := by
  simp [convert_pdfs_to_txt, h]

theorem convert_eq_of_filter_ne_nil (env : Env) (listing : List String) (fs0 : Fs)
    (h : listing.filter (fun f => pyEndsWithPdf f) ≠ []) :
    convert_pdfs_to_txt env listing fs0 =
      (applyWrites fs0
        ((listing.filter (fun f => pyEndsWithPdf f)).filterMap (fileWrite env)),
       (Msg.found (listing.filter (fun f => pyEndsWithPdf f)).length ::
          (listing.filter (fun f => pyEndsWithPdf f)).flatMap (fileMsgs env)) ++
         [Msg.done]) := by
  have hb : (listing.filter (fun f => pyEndsWithPdf f)).isEmpty = false := by
    cases hl : listing.filter (fun f => pyEndsWithPdf f) with
    | nil => exact absurd hl h
    | cons a t => rfl
  simp only [convert_pdfs_to_txt, hb, Bool.false_eq_true, if_false]
  rw [foldl_step_fst, foldl_step_snd]
  simp

theorem getFile?_applyWrites (w : List (String × String)) :
    ∀ (fs : Fs) (m : String),
      getFile? (applyWrites fs w) m =
        match lastW w m with
        | some c => some c
        | none => getFile? fs m := by
  induction w with
  | nil => intro fs m; simp [applyWrites, lastW]
  | cons e w ih =>
    intro fs m
    obtain ⟨n, c⟩ := e
    show getFile? (applyWrites (setFile fs n c) w) m = _
    rw [ih]
    cases h : lastW w m with
    | some c2 => simp [lastW, h]
    | none =>
      by_cases hm : m = n
      · subst hm
        simp [lastW, h, getFile?_setFile]
      · simp [lastW, h, getFile?_setFile, hm]

theorem getFile?_applyWrites_idem (fs : Fs) (w : List (String × String))
    (m : String) :
    getFile? (applyWrites (applyWrites fs w) w) m =
      getFile? (applyWrites fs w) m := by
  cases h : lastW w m <;> simp [getFile?_applyWrites, h]

/-- C2 (amended): in every run that finds at least one PDF, every selected
file is processed (its start message appears in the transcript); any error on
one file, whether the PDF read or page extraction raised or the output-file
write raised, is reported with that filename and the error message while the
loop continues past it; and the completion message is the last line printed.
When no PDF is found the converter instead prints only the no-files report
and no completion message (see the counterexample). -/
theorem errors_caught_batch_continues (env : Env) (listing : List String)
    (fs0 : Fs) (h : listing.filter (fun f => pyEndsWithPdf f) ≠ []) :
    ((convert_pdfs_to_txt env listing fs0).2).getLast? = some Msg.done ∧
    (∀ f, f ∈ listing.filter (fun g => pyEndsWithPdf g) →
      Msg.converting f (txtName f) ∈ (convert_pdfs_to_txt env listing fs0).2) ∧
    (∀ f m, f ∈ listing.filter (fun g => pyEndsWithPdf g) →
      env.read f = PdfResult.err m →
      Msg.error f m ∈ (convert_pdfs_to_txt env listing fs0).2) ∧
    (∀ f pages m, f ∈ listing.filter (fun g => pyEndsWithPdf g) →
      env.read f = PdfResult.ok pages →
      env.writeErr (txtName f) = some m →
      Msg.error f m ∈ (convert_pdfs_to_txt env listing fs0).2) := by
  rw [convert_eq_of_filter_ne_nil env listing fs0 h]
  refine ⟨List.getLast?_concat _, ?_, ?_, ?_⟩
  · intro f hf
    have hmem : Msg.converting f (txtName f) ∈
        (listing.filter (fun f => pyEndsWithPdf f)).flatMap (fileMsgs env) := by
      rw [List.mem_flatMap]
      exact ⟨f, hf, by simp [fileMsgs]⟩
    simp [hmem]
  · intro f m hf hr
    have hmem : Msg.error f m ∈
        (listing.filter (fun f => pyEndsWithPdf f)).flatMap (fileMsgs env) := by
      rw [List.mem_flatMap]
      exact ⟨f, hf, by simp [fileMsgs, hr]⟩
    simp [hmem]
  · intro f pages m hf hr hw
    have hmem : Msg.error f m ∈
        (listing.filter (fun f => pyEndsWithPdf f)).flatMap (fileMsgs env) := by
      rw [List.mem_flatMap]
      exact ⟨f, hf, by simp [fileMsgs, hr, hw]⟩
    simp [hmem]

/-- C2 witness: a run over the single file `a.pdf` ends with the completion
message. -/
theorem errors_caught_batch_continues_witness :
    ((convert_pdfs_to_txt env0 ["a.pdf"] []).2).getLast? = some Msg.done :=
  (errors_caught_batch_continues env0 ["a.pdf"] [] (by decide)).1

/-- C2 counterexample: a run over the input file list `["notes.txt"]` finds
no PDF, prints only the no-files report, and the final completion message is
not printed, refuting the unconditional claim. -/
theorem errors_caught_batch_continues_counterexample :
    Msg.done ∉ (convert_pdfs_to_txt env0 ["notes.txt"] []).2 := by decide

/-- C4: membership in the selection is exactly membership in the listing
together with the lowercased name ending in `.pdf`; and the concrete
directory `a.pdf`, `b.PDF`, `notes.txt` produces exactly the output files
`a.txt` and `b.txt`. -/
theorem filter_selects_exactly_pdfs :
    (∀ (listing : List String) (f : String),
      f ∈ listing.filter (fun g => pyEndsWithPdf g) ↔
        f ∈ listing ∧ pyEndsWithPdf f = true) ∧
    (convert_pdfs_to_txt env0 ["a.pdf", "b.PDF", "notes.txt"] []).1.map
        Prod.fst = ["a.txt", "b.txt"] := by
  refine ⟨?_, ?_⟩
  · intro listing f
    exact List.mem_filter
  · decide

/-- C6: a run over a listing with no entry ending in `.pdf` (case-insensitive)
writes nothing (the output state is returned unchanged), prints exactly the
no-files report, and returns normally (the function is total and this is its
value). -/
theorem no_pdfs_no_writes (env : Env) (listing : List String) (fs0 : Fs)
    (h : listing.filter (fun f => pyEndsWithPdf f) = []) :
    convert_pdfs_to_txt env listing fs0 = (fs0, [Msg.noFiles]) :=
  convert_eq_of_filter_nil env listing fs0 h

/-- C6 witness: the listing `["notes.txt"]` contains no PDF, so the run
writes nothing and reports no files found. -/
theorem no_pdfs_no_writes_witness :
    convert_pdfs_to_txt env0 ["notes.txt"] [] = ([], [Msg.noFiles]) :=
  no_pdfs_no_writes env0 ["notes.txt"] [] (by decide)

/-- C7: running the converter twice over the same listing with the same
reading environment is idempotent: the second run overwrites each output
file with the same content the first run wrote, so the resulting file
contents and the console transcript of the second run are identical to the
first run's. -/
theorem second_run_identical (env : Env) (listing : List String) (fs0 : Fs) :
    (∀ n, getFile? (convert_pdfs_to_txt env listing
        (convert_pdfs_to_txt env listing fs0).1).1 n =
      getFile? (convert_pdfs_to_txt env listing fs0).1 n) ∧
    (convert_pdfs_to_txt env listing
        (convert_pdfs_to_txt env listing fs0).1).2 =
      (convert_pdfs_to_txt env listing fs0).2 := by
  by_cases hl : listing.filter (fun f => pyEndsWithPdf f) = []
  · rw [convert_eq_of_filter_nil env listing fs0 hl]
    rw [convert_eq_of_filter_nil env listing _ hl]
    simp
  · rw [convert_eq_of_filter_ne_nil env listing fs0 hl]
    rw [convert_eq_of_filter_ne_nil env listing _ hl]
    constructor
    · intro n
      exact getFile?_applyWrites_idem fs0 _ n
    · rfl

end PdfToTxt
